import Mathlib

/-!
# Verification of the razorpay-search query-memory and ingestion subsystem

Shallow embedding of the logic in `memory.py`, `ingest.py`, `ingest_slack.py`
and `backend/services/memory_service.py`.  External collaborators (the Qdrant
vector store, the Azure OpenAI embedding/LLM provider) are modelled as explicit
oracles/parameters: embeddings as an abstract vector label per string,
similarity as a rational-valued function supplied by the caller, and LLM
completions as `Option` values (`none` models a raised provider exception).
-/

namespace RzpSearch

/-! ## Payload values

Qdrant point payloads are JSON-like dictionaries.  The code under analysis only
ever stores strings, integers and lists of strings, so payload values are
modelled by `PVal` and payloads by insertion-ordered association lists with
Python-`dict` update semantics (overwrite in place, append when fresh). -/

inductive PVal where
  | vStr : String → PVal
  | vNat : Nat → PVal
  | vList : List String → PVal
  deriving DecidableEq

abbrev Payload := List (String × PVal)

/-- Python `payload.get(k)` (payloads built by this module have unique keys). -/
def dictGet : Payload → String → Option PVal
  | [], _ => none
  | kv :: rest, k => if kv.1 == k then some kv.2 else dictGet rest k

/-- Python `payload[k] = v`: overwrite the first matching key in place,
otherwise append. -/
def dictInsert : Payload → String → PVal → Payload
  | [], k, v => [(k, v)]
  | kv :: rest, k, v => if kv.1 == k then (k, v) :: rest else kv :: dictInsert rest k v

/-- Python `payload.update(metadata)`. -/
def dictUpdate (p : Payload) (metadata : Payload) : Payload :=
  metadata.foldl (fun acc kv => dictInsert acc kv.1 kv.2) p

theorem dictGet_insert_self (p : Payload) (k : String) (v : PVal) :
    dictGet (dictInsert p k v) k = some v := by
  induction p with
  | nil => simp [dictInsert, dictGet]
  | cons kv rest ih =>
    by_cases h : kv.1 == k
    · simp [dictInsert, dictGet, h]
    · simp [dictInsert, dictGet, h, ih]

theorem dictGet_insert_ne (p : Payload) {k k' : String} (v : PVal) (h : k' ≠ k) :
    dictGet (dictInsert p k' v) k = dictGet p k := by
  induction p with
  | nil => simp [dictInsert, dictGet, h]
  | cons kv rest ih =>
    by_cases hk : kv.1 == k'
    · have hkv : kv.1 = k' := by simpa using hk
      simp [dictInsert, dictGet, hk, hkv, h]
    · by_cases hk2 : kv.1 == k
      · simp [dictInsert, dictGet, hk, hk2]
      · simp [dictInsert, dictGet, hk, hk2, ih]

theorem dictGet_update_of_not_mem (p : Payload) (metadata : Payload) (k : String)
    (h : ∀ kv ∈ metadata, kv.1 ≠ k) :
    dictGet (dictUpdate p metadata) k = dictGet p k := by
  induction metadata generalizing p with
  | nil => rfl
  | cons kv rest ih =>
    have hkv : kv.1 ≠ k := h kv (by simp)
    have hrest : ∀ kv' ∈ rest, kv'.1 ≠ k := fun kv' hm => h kv' (by simp [hm])
    simpa [dictUpdate] using (ih (dictInsert p kv.1 kv.2) hrest).trans
      (dictGet_insert_ne p kv.2 hkv)

/-! ## Vector-store model

A stored point carries a numeric id, an abstract vector label (embeddings are
opaque to the code under analysis; only equality of vectors matters, since a
caller-supplied similarity oracle `sim` produces the scores), and a payload.
Scores live in an arbitrary linear order `σ` (the real system uses floats). -/

structure QPoint where
  id : Nat
  vector : Nat
  payload : Payload
  deriving DecidableEq

structure Scored (σ : Type) where
  point : QPoint
  score : σ
  deriving DecidableEq

/-- One `FieldCondition(key, MatchValue(value))`: payload value at `key` equals
the given value.  A Qdrant `Filter(must=conds)` is the conjunction. -/
def matchesConds (conds : List (String × PVal)) (p : QPoint) : Bool :=
  conds.all fun c => dictGet p.payload c.1 == some c.2

/-- Relation ordering scored points by descending score (ties keep earlier
elements first, matching Python's stable sort). -/
def byScoreDesc {σ : Type} [LinearOrder σ] (a b : Scored σ) : Prop :=
  b.score ≤ a.score

instance {σ : Type} [LinearOrder σ] : DecidableRel (byScoreDesc (σ := σ)) :=
  fun a b => inferInstanceAs (Decidable (b.score ≤ a.score))

instance {σ : Type} [LinearOrder σ] : IsTotal (Scored σ) byScoreDesc :=
  ⟨fun a b => le_total b.score a.score⟩

instance {σ : Type} [LinearOrder σ] : IsTrans (Scored σ) byScoreDesc :=
  ⟨fun _ _ _ h1 h2 => le_trans h2 h1⟩

/-- `qdrant.query_points(collection, NearestQuery(qv), filter, limit,
score_threshold)`: score every point passing the filter, drop scores below the
threshold (when one is given), rank by descending score, return the top
`lim`. -/
def queryPoints {σ : Type} [LinearOrder σ] (sim : Nat → Nat → σ)
    (store : List QPoint) (conds : List (String × PVal)) (qv : Nat)
    (lim : Nat) (thresh : Option σ) : List (Scored σ) :=
  let scored := (store.filter (matchesConds conds)).map
    fun p => Scored.mk p (sim qv p.vector)
  let passing := match thresh with
    | none => scored
    | some t => scored.filter fun s => decide (t ≤ s.score)
  (List.insertionSort byScoreDesc passing).take lim

/-- `qdrant.set_payload(collection, payload, points=[pid])` where the caller
passes a payload containing every key of the point's previous payload (as
`update_query_click` does), so the merge amounts to replacement. -/
def setPayload (store : List QPoint) (pid : Nat) (newPayload : Payload) :
    List QPoint :=
  store.map fun p => if p.id == pid then { p with payload := newPayload } else p

/-- `qdrant.upsert(collection, points=[pt])`: replace the point with the same
id when present, otherwise add the point. -/
def upsertPoint (store : List QPoint) (pt : QPoint) : List QPoint :=
  if store.any (fun p => p.id == pt.id) then
    store.map fun p => if p.id == pt.id then pt else p
  else
    store ++ [pt]

/-! Basic facts about `queryPoints`. -/

theorem mem_queryPoints {σ : Type} [LinearOrder σ] {sim : Nat → Nat → σ}
    {store : List QPoint} {conds : List (String × PVal)} {qv lim : Nat}
    {thresh : Option σ} {sp : Scored σ}
    (h : sp ∈ queryPoints sim store conds qv lim thresh) :
    sp.point ∈ store ∧ matchesConds conds sp.point = true ∧
    sp.score = sim qv sp.point.vector ∧ ∀ t, thresh = some t → t ≤ sp.score := by
  unfold queryPoints at h
  have h1 := List.take_subset _ _ h
  have h2 := (List.perm_insertionSort byScoreDesc _).mem_iff.mp h1
  have h3 : sp ∈ (store.filter (matchesConds conds)).map
      (fun p => Scored.mk p (sim qv p.vector)) ∧
      ∀ t, thresh = some t → t ≤ sp.score := by
    cases thresh with
    | none => exact ⟨h2, by simp⟩
    | some t =>
      have := List.mem_filter.mp h2
      exact ⟨this.1, by simpa using this.2⟩
  obtain ⟨hmem, hth⟩ := h3
  obtain ⟨p, hp, hsp⟩ := List.mem_map.mp hmem
  have hpf := List.mem_filter.mp hp
  refine ⟨?_, ?_, ?_, hth⟩
  · rw [← hsp]; exact hpf.1
  · rw [← hsp]; exact hpf.2
  · rw [← hsp]

theorem sorted_queryPoints {σ : Type} [LinearOrder σ] (sim : Nat → Nat → σ)
    (store : List QPoint) (conds : List (String × PVal)) (qv lim : Nat)
    (thresh : Option σ) :
    List.Sorted byScoreDesc (queryPoints sim store conds qv lim thresh) := by
  unfold queryPoints
  exact (List.sorted_insertionSort byScoreDesc _).sublist (List.take_sublist _ _)

theorem length_queryPoints {σ : Type} [LinearOrder σ] (sim : Nat → Nat → σ)
    (store : List QPoint) (conds : List (String × PVal)) (qv lim : Nat)
    (thresh : Option σ) :
    (queryPoints sim store conds qv lim thresh).length ≤ lim := by
  unfold queryPoints
  exact List.length_take_le _ _

/-! ## Query-memory store (`memory.py`, mirrored by
`backend/services/memory_service.py`)

`embed` is the embedding oracle (`memory.py:28`); `ts`/`query_id` stand for
`datetime.now().isoformat()` and `int(time.time() * 1000000)`. -/

/-- `if user_id: payload["user_id"] = user_id` (`memory.py:97-98`); Python
truthiness skips `None` and the empty string. -/
def addUserId (p : Payload) : Option String → Payload
  | some u => if u == "" then p else dictInsert p "user_id" (.vStr u)
  | none => p

/-- `if results_clicked: payload["results_clicked"] = …;
payload["click_count"] = len(…)` (`memory.py:99-101`). -/
def addResultsClicked (p : Payload) : Option (List String) → Payload
  | some l => if l.isEmpty then p else
      dictInsert (dictInsert p "results_clicked" (.vList l))
        "click_count" (.vNat l.length)
  | none => p

/-- `if sources_searched: payload["sources_searched"] = …`
(`memory.py:102-103`). -/
def addSourcesSearched (p : Payload) : Option (List String) → Payload
  | some l => if l.isEmpty then p else
      dictInsert p "sources_searched" (.vList l)
  | none => p

/-- Payload built by `save_query` (`memory.py:88-105`).  Python truthiness
governs the conditional fields: `None` and the empty string/list are skipped
(an empty metadata dict is also skipped, which coincides with
`dictUpdate · []`). -/
def save_query_payload (tenant ts query : String) (user_id : Option String)
    (results_clicked sources_searched : Option (List String))
    (result_count : Nat) (metadata : Payload) : Payload :=
  dictUpdate
    (addSourcesSearched
      (addResultsClicked
        (addUserId
          [("query", .vStr query), ("tenant_id", .vStr tenant),
           ("timestamp", .vStr ts), ("result_count", .vNat result_count),
           ("type", .vStr "query_memory")]
          user_id)
        results_clicked)
      sources_searched)
    metadata

/-- `save_query` (`memory.py:60-119`): embed the query, build the payload,
upsert a fresh point. -/
def save_query (embed : String → Nat) (ts : String) (query_id : Nat)
    (store : List QPoint) (tenant query : String) (user_id : Option String)
    (results_clicked sources_searched : Option (List String))
    (result_count : Nat) (metadata : Payload) : List QPoint :=
  upsertPoint store ⟨query_id, embed query,
    save_query_payload tenant ts query user_id results_clicked
      sources_searched result_count metadata⟩

/-- Filter used by `get_similar_queries` (`memory.py:143-166`): user condition
first (when `user_id` is truthy), then tenant. -/
def simConds (tenant : String) (user_id : Option String) :
    List (String × PVal) :=
  match user_id with
  | some u => if u == "" then [("tenant_id", .vStr tenant)]
      else [("user_id", .vStr u), ("tenant_id", .vStr tenant)]
  | none => [("tenant_id", .vStr tenant)]

/-- Keys excluded from the `metadata` sub-dict built at `memory.py:188-190`. -/
def memKeys : List String :=
  ["query", "timestamp", "user_id", "click_count", "sources_searched",
   "result_count", "tenant_id", "type"]

/-- One element of the list returned by `get_similar_queries`
(`memory.py:178-191`); `payload.get(k, default)` becomes `(dictGet ..).getD`. -/
structure SimRecord (σ : Type) where
  query : PVal
  score : σ
  timestamp : Option PVal
  user_id : Option PVal
  click_count : PVal
  sources_searched : PVal
  result_count : PVal
  metadata : Payload
  deriving DecidableEq

def extractSimRecord {σ : Type} (sp : Scored σ) : SimRecord σ :=
  { query := (dictGet sp.point.payload "query").getD (.vStr "")
    score := sp.score
    timestamp := dictGet sp.point.payload "timestamp"
    user_id := dictGet sp.point.payload "user_id"
    click_count := (dictGet sp.point.payload "click_count").getD (.vNat 0)
    sources_searched :=
      (dictGet sp.point.payload "sources_searched").getD (.vList [])
    result_count := (dictGet sp.point.payload "result_count").getD (.vNat 0)
    metadata := sp.point.payload.filter fun kv => !(memKeys.contains kv.1) }

/-- `get_similar_queries` (`memory.py:121-193`): nearest-neighbor search with
the tenant/user filter, `score_threshold = min_score`, top `lim`. -/
def get_similar_queries {σ : Type} [LinearOrder σ] (sim : Nat → Nat → σ)
    (embed : String → Nat) (store : List QPoint) (tenant query : String)
    (lim : Nat) (user_id : Option String) (min_score : σ) :
    List (SimRecord σ) :=
  (queryPoints sim store (simConds tenant user_id) (embed query) lim
    (some min_score)).map extractSimRecord

/-- Filter used by `update_query_click` (`memory.py:337-352`): tenant first,
then the user condition is appended when `user_id` is truthy. -/
def clickConds (tenant : String) (user_id : Option String) :
    List (String × PVal) :=
  match user_id with
  | some u => if u == "" then [("tenant_id", .vStr tenant)]
      else [("tenant_id", .vStr tenant), ("user_id", .vStr u)]
  | none => [("tenant_id", .vStr tenant)]

/-- `current_payload.get("results_clicked", [])` — payloads written by this
module always store a list of strings under this key. -/
def extractClicked (p : Payload) : List String :=
  match dictGet p "results_clicked" with
  | some (.vList l) => l
  | _ => []

/-- `payload.get("click_count", 0)` as a number. -/
def extractClickCount (p : Payload) : Nat :=
  match dictGet p "click_count" with
  | some (.vNat n) => n
  | _ => 0

/-- The record-level invariant claimed by the spec:
`clickCount == len(resultsClicked)`. -/
def clickInv (p : Payload) : Prop :=
  extractClickCount p = (extractClicked p).length

/-- Payload written back by `update_query_click` (`memory.py:370-374`). -/
def clickedPayload (current : Payload) (clicked' : List String) : Payload :=
  dictInsert (dictInsert current "results_clicked" (.vList clicked'))
    "click_count" (.vNat clicked'.length)

/-- `update_query_click` (`memory.py:318-381`): find the single nearest record
in scope (no score threshold), and when `result_id` is not yet in its
`results_clicked`, append it, recompute `click_count`, write the payload
back.  Otherwise (including when no record matches) the store is unchanged. -/
def update_query_click {σ : Type} [LinearOrder σ] (sim : Nat → Nat → σ)
    (embed : String → Nat) (store : List QPoint)
    (tenant query result_id : String) (user_id : Option String) :
    List QPoint :=
  match queryPoints sim store (clickConds tenant user_id) (embed query) 1
      none with
  | [] => store
  | sp :: _ =>
    let clicked := extractClicked sp.point.payload
    if clicked.contains result_id then store
    else
      setPayload store sp.point.id
        (clickedPayload sp.point.payload (clicked ++ [result_id]))

/-! ## Popularity aggregation (`memory.py:264-316`)

`get_popular_queries` first fetches up to 1000 recent history records via
`get_query_history`; each fetched record is a dict with the fields below
(`memory.py:244-251`).  The aggregation itself is a pure function of that
fetched list, which is how it is modelled here. -/

structure HistRecord where
  query : String
  timestamp : String
  user_id : Option String
  click_count : Nat
  sources_searched : List String
  deriving DecidableEq

structure PopRecord where
  query : String
  count : Nat
  total_clicks : Nat
  last_seen : String
  sources : List String
  popularity_score : ℚ
  deriving DecidableEq

/-- Intermediate `query_stats[query_text]` entry (`memory.py:288-294`). -/
structure PopStats where
  query : String
  count : Nat
  total_clicks : Nat
  last_seen : String
  sources : List String
  deriving DecidableEq

/-- `stats["sources"].update(q["sources_searched"])` — Python set union,
modelled as duplicate-free insertion order. -/
def setUnion (s l : List String) : List String :=
  l.foldl (fun acc x => if acc.contains x then acc else acc ++ [x]) s

/-- Fresh `query_stats` entry for a query text (`memory.py:288-294`). -/
def initStats (q : HistRecord) : PopStats :=
  ⟨q.query, 0, 0, q.timestamp, []⟩

/-- The updates applied to an entry for one record (`memory.py:296-303`). -/
def bumpStats (s : PopStats) (q : HistRecord) : PopStats :=
  { s with
    count := s.count + 1
    total_clicks := s.total_clicks + q.click_count
    last_seen := if s.last_seen < q.timestamp then q.timestamp else s.last_seen
    sources := if q.sources_searched.isEmpty then s.sources
      else setUnion s.sources q.sources_searched }

/-- Processing of one record in the `for q in recent_queries` loop: look the
query text up in the (insertion-ordered) dict, creating the entry if absent,
then apply the updates. -/
def aggStep (acc : List PopStats) (q : HistRecord) : List PopStats :=
  if acc.any (fun s => s.query == q.query) then
    acc.map fun s => if s.query == q.query then bumpStats s q else s
  else
    acc ++ [bumpStats (initStats q) q]

/-- The whole aggregation loop (`memory.py:284-303`); the resulting list is in
dict insertion order, matching `query_stats.items()`. -/
def aggregate (recs : List HistRecord) : List PopStats :=
  recs.foldl aggStep []

def byPopDesc (a b : PopRecord) : Prop :=
  b.popularity_score ≤ a.popularity_score

instance : DecidableRel byPopDesc :=
  fun a b => inferInstanceAs (Decidable (b.popularity_score ≤ a.popularity_score))

instance : IsTotal PopRecord byPopDesc :=
  ⟨fun a b => le_total b.popularity_score a.popularity_score⟩

instance : IsTrans PopRecord byPopDesc :=
  ⟨fun _ _ _ h1 h2 => le_trans h2 h1⟩

/-- `get_popular_queries` (`memory.py:264-316`) as a function of the fetched
history records: aggregate, attach `popularity_score = count * (1 +
total_clicks / 10)`, sort by descending score (stable), truncate to `lim`. -/
def get_popular_queries (recent : List HistRecord) (lim : Nat) :
    List PopRecord :=
  let popular := (aggregate recent).map fun s =>
    { query := s.query, count := s.count, total_clicks := s.total_clicks,
      last_seen := s.last_seen, sources := s.sources,
      popularity_score := (s.count : ℚ) * (1 + (s.total_clicks : ℚ) / 10)
      : PopRecord }
  (List.insertionSort byPopDesc popular).take lim

/-! ## Content fitter (`ingest.py:60-134`, identical in
`ingest_slack.py:74-148`)

Text is a list of characters (Python strings index by code point, so `len`,
slicing and concatenation transfer directly).  The summarization call is an
oracle: `some s` is the provider's response text, `none` a raised provider
exception. -/

def estimate_tokens (text : List Char) : Nat :=
  text.length / 4

/-- Python `str.strip()`. -/
def pyStrip (l : List Char) : List Char :=
  ((l.dropWhile Char.isWhitespace).reverse.dropWhile Char.isWhitespace).reverse

def noteSummarized : List Char :=
  "\n\n[Note: This content was summarized due to length constraints]".data

def noteSumTrunc : List Char :=
  "\n\n[Note: Content was summarized and truncated due to length]".data

def noteTrunc : List Char :=
  "\n\n[Note: Content truncated due to length]".data

/-- `chunk_text` (`ingest.py:67-134`): pass text through unchanged when its
estimate fits; otherwise summarize via the LLM (appending a note and
hard-truncating to `max_tokens * 4` characters if the noted summary still
estimates over budget), falling back to plain truncation plus a note when the
provider call raises. -/
def chunk_text (llm : Option (List Char)) (text : List Char)
    (max_tokens : Nat := 6000) : List Char :=
  if estimate_tokens text ≤ max_tokens then text
  else
    let max_chars := max_tokens * 4
    match llm with
    | some s =>
      let summary := pyStrip s
      let result := summary ++ noteSummarized
      if max_tokens < estimate_tokens result then
        result.take max_chars ++ noteSumTrunc
      else result
    | none => text.take max_chars ++ noteTrunc

/-! ## Usefulness filter (`ingest.py:196-260`, `ingest_slack.py:247-312`)

The LLM response is again an oracle (`none` = the provider call raised).  The
code uppercases the stripped response and tests substring containment. -/

/-- Python `needle in hay` for strings (substring containment). -/
def containsTok (needle : List Char) : List Char → Bool
  | [] => needle.isEmpty
  | c :: rest => needle.isPrefixOf (c :: rest) || containsTok needle rest

def pyUpper (l : List Char) : List Char :=
  l.map Char.toUpper

def notUsefulTok : List Char := "NOT_USEFUL".data

def notUsefulSpaceTok : List Char := "NOT USEFUL".data

def usefulTok : List Char := "USEFUL".data

/-- `is_useful_commit` (`ingest.py:196-260`): `NOT_USEFUL`/`NOT USEFUL` beats
`USEFUL`; unclear responses and provider failures default to `True`
(include). -/
def is_useful_commit (llm : Option (List Char)) : Bool :=
  match llm with
  | none => true
  | some content =>
    let result := pyUpper (pyStrip content)
    if containsTok notUsefulTok result || containsTok notUsefulSpaceTok result
    then false
    else if containsTok usefulTok result then true
    else true

/-- `is_useful_message` (`ingest_slack.py:247-312`): same parse, but unclear
responses default to `False` (exclude) while provider failures default to
`True` (include). -/
def is_useful_message (llm : Option (List Char)) : Bool :=
  match llm with
  | none => true
  | some content =>
    let result := pyUpper (pyStrip content)
    if containsTok notUsefulTok result || containsTok notUsefulSpaceTok result
    then false
    else if containsTok usefulTok result then true
    else false

/-! ## Dedup layer (`ingest.py:279-297`, `ingest_slack.py:180-198`)

`document_exists` wraps `qdrant.retrieve(collection, ids=[uuid5(docId)])` in a
`try`; the retrieve outcome is modelled as an `Except` value (`.error` = the
call raised, `.ok res` = the list of points found). -/

def document_exists (retrieveResult : Except String (List Nat)) : Bool :=
  match retrieveResult with
  | .error _ => false
  | .ok res => decide (res.length > 0)

/-! ## Ingestion call-site control flow (`ingest.py:327-495`,
`ingest_slack.py:457-538`)

Only the order of the expensive operations matters for the dedup claims, so a
call site is modelled as the trace of operations it performs, given oracle
outcomes for "does the document already exist" and the usefulness filter. -/

inductive Action where
  | checkExists
  | llmCall
  | embedCall
  | upsertCall
  deriving DecidableEq

/-- `ingest_readme` (`ingest.py:327-358`): existence check first, return
immediately when present; `fetch_ok` is the README fetch outcome. -/
def ingest_readme_actions (exists_ : Bool) (fetch_ok : Bool) : List Action :=
  .checkExists :: if exists_ then [] else
    if fetch_ok then [.embedCall, .upsertCall] else []

/-- One merged-PR iteration of `ingest_prs` (`ingest.py:375-425`): existence
check first; when absent, LLM enrichment then embed + upsert. -/
def ingest_pr_actions (exists_ : Bool) : List Action :=
  .checkExists :: if exists_ then [] else [.llmCall, .embedCall, .upsertCall]

/-- The per-batch part of `ingest_commits` (`ingest.py:466-495`): each batch's
existence check precedes its enrichment/embedding, and an existing batch is
skipped. -/
def commit_batches_actions (exists_flags : List Bool) : List Action :=
  exists_flags.flatMap fun e =>
    .checkExists :: if e then [] else [.llmCall, .embedCall, .upsertCall]

/-- `ingest_commits` (`ingest.py:427-495`): `is_useful_commit` is invoked once
per fetched commit (`ingest.py:448-452`) before any batch existence check;
then the batches are processed. -/
def ingest_commits_actions (fetched_commits : List Bool)
    (batch_exists_flags : List Bool) : List Action :=
  fetched_commits.map (fun _ => Action.llmCall) ++
    commit_batches_actions batch_exists_flags

/-- One message iteration of `ingest_channel_messages`
(`ingest_slack.py:457-538`), for a message that passed the subtype/length
guards and has no thread.  The `document_exists` check is commented out in the
source (`ingest_slack.py:472-474`): the computed `doc_id` is used only for
storage, and the existence oracle is never consulted.  `useful` is the
`is_useful_message` outcome (one LLM call); useful messages are then refined
(second LLM call), embedded and upserted. -/
def ingest_slack_message_actions (exists_ : Bool) (useful : Bool) :
    List Action :=
  if useful then [.llmCall, .llmCall, .embedCall, .upsertCall]
  else [.llmCall]

/-! ## Helper lemmas -/

theorem noteTrunc_len : noteTrunc.length = 41 := rfl

theorem noteSumTrunc_len : noteSumTrunc.length = 60 := rfl

theorem containsTok_iff (needle hay : List Char) :
    containsTok needle hay = true ↔ needle <:+: hay := by
  induction hay with
  | nil => simp [containsTok, List.infix_nil, List.isEmpty_iff]
  | cons c rest ih =>
    simp [containsTok, ih, List.infix_cons_iff, List.isPrefixOf_iff_prefix]

theorem usefulTok_infix_notUsefulSpaceTok : usefulTok <:+: notUsefulSpaceTok := by
  rw [← containsTok_iff]; decide

/-! ## Claim C9: `document_exists` fails open on lookup errors -/

/-- C9: for every docId, if the underlying vector-store retrieve call raises
any error, `document_exists` returns `false` (fail-open toward re-ingestion)
rather than propagating the error (`ingest.py:289-297`,
`ingest_slack.py:190-198`). -/
theorem C9_document_exists_fail_open (e : String) :
    document_exists (Except.error e) = false := rfl

/-- Witness for C9 at a concrete error. -/
theorem C9_document_exists_fail_open_witness :
    document_exists (Except.error "connection refused") = false :=
  C9_document_exists_fail_open "connection refused"

/-! ## Claim C8: `update_query_click` is a silent no-op when no record
matches -/

/-- C8: whenever the nearest-neighbor lookup (tenant/user scope, no score
threshold) finds no record, `update_query_click` changes nothing and raises no
error (`memory.py:362`: the whole update is guarded by `if results.points`).
In this embedding, totality of `update_query_click` models "raises no
error". -/
theorem C8_update_click_noop {σ : Type} [LinearOrder σ] (sim : Nat → Nat → σ)
    (embed : String → Nat) (store : List QPoint)
    (tenant query result_id : String) (user_id : Option String)
    (h : queryPoints sim store (clickConds tenant user_id) (embed query) 1
      none = []) :
    update_query_click sim embed store tenant query result_id user_id =
      store := by
  unfold update_query_click
  rw [h]

def c8Store : List QPoint := [⟨1, 0, [("tenant_id", PVal.vStr "other")]⟩]

/-- Witness for C8: a store holding only a foreign-tenant record is untouched
by a click update for tenant `"t"`. -/
theorem C8_update_click_noop_witness :
    update_query_click (fun _ _ => (0 : Int)) (fun _ => 0) c8Store
      "t" "q" "r" none = c8Store :=
  C8_update_click_noop _ _ _ _ _ _ _ (by decide)

/-! ## Claim C5: dedup checks at the ingestion call sites

The claim asserts that every call site — GitHub readme, GitHub PR, GitHub
commit batch, Slack message — consults `document_exists` before any
embedding/LLM work and skips existing items.  That is refuted by the Slack
site, whose check is commented out (`ingest_slack.py:472-474`). -/

/-- C5 counterexample: for a Slack message whose document already exists
(`exists_ = true`) and which the filter deems useful, the pipeline consults no
existence check yet still performs LLM, embedding and upsert work. -/
theorem C5_counterexample :
    Action.checkExists ∉ ingest_slack_message_actions true true ∧
    Action.embedCall ∈ ingest_slack_message_actions true true ∧
    Action.llmCall ∈ ingest_slack_message_actions true true := by
  decide

/-- C5 amended: the GitHub readme and PR sites check `document_exists` first
and do nothing further for existing items; the GitHub commit site checks each
batch's docId before that batch's enrichment/embedding (skipping existing
batches), but performs one `is_useful_commit` LLM call per fetched commit
before any existence check; the Slack message site never consults the check
(its trace is independent of the existence flag and contains no
`checkExists`) and embeds/stores useful messages regardless. -/
theorem C5_amended :
    (∀ f, ingest_readme_actions true f = [Action.checkExists]) ∧
    (∀ e f, (ingest_readme_actions e f).head? = some Action.checkExists) ∧
    ingest_pr_actions true = [Action.checkExists] ∧
    (∀ e, (ingest_pr_actions e).head? = some Action.checkExists) ∧
    (∀ flags, (∀ b ∈ flags, b = true) →
      commit_batches_actions flags = flags.map fun _ => Action.checkExists) ∧
    (∀ commits flags, ingest_commits_actions commits flags =
      commits.map (fun _ => Action.llmCall) ++ commit_batches_actions flags) ∧
    (∀ e u, ingest_slack_message_actions e u =
        ingest_slack_message_actions true u ∧
      Action.checkExists ∉ ingest_slack_message_actions e u) ∧
    Action.embedCall ∈ ingest_slack_message_actions true true := by
  refine ⟨fun f => rfl, ?_, rfl, ?_, ?_, fun c fl => rfl, ?_, by decide⟩
  · intro e f; cases e <;> cases f <;> rfl
  · intro e; cases e <;> rfl
  · intro flags h
    induction flags with
    | nil => rfl
    | cons b bs ih =>
      have hb : b = true := h b (by simp)
      have hbs := ih fun x hx => h x (by simp [hx])
      simp [commit_batches_actions, hb] at hbs ⊢
      exact hbs
  · intro e u
    refine ⟨rfl, ?_⟩
    cases e <;> cases u <;> decide

/-- Witness for C5 amended, applying the hypothesis-bearing parts at concrete
inputs. -/
theorem C5_amended_witness :
    commit_batches_actions [true, true] =
      [Action.checkExists, Action.checkExists] ∧
    (ingest_readme_actions false true).head? = some Action.checkExists :=
  ⟨C5_amended.2.2.2.2.1 [true, true] (by decide),
   C5_amended.2.1 false true⟩

/-! ## Claim C6: usefulness-filter parsing and defaults -/

/-- C6: the LLM response (stripped and uppercased) is parsed by substring
tests; `NOT_USEFUL` takes precedence over `USEFUL`; with neither token present
`is_useful_commit` includes while `is_useful_message` excludes; when the
provider call raises (`none`), both include.  (The code additionally treats
the space variant `NOT USEFUL` as negative, which is why the positive case
assumes its absence; absence of `USEFUL` already implies absence of
`NOT USEFUL`, so the neither-token case needs no extra hypothesis.) -/
theorem C6_usefulness_parse :
    (∀ s : List Char,
      (containsTok notUsefulTok (pyUpper (pyStrip s)) = true →
        is_useful_commit (some s) = false ∧
        is_useful_message (some s) = false) ∧
      (containsTok notUsefulTok (pyUpper (pyStrip s)) = false →
        containsTok usefulTok (pyUpper (pyStrip s)) = false →
        is_useful_commit (some s) = true ∧
        is_useful_message (some s) = false) ∧
      (containsTok notUsefulTok (pyUpper (pyStrip s)) = false →
        containsTok notUsefulSpaceTok (pyUpper (pyStrip s)) = false →
        containsTok usefulTok (pyUpper (pyStrip s)) = true →
        is_useful_commit (some s) = true ∧
        is_useful_message (some s) = true)) ∧
    is_useful_commit none = true ∧ is_useful_message none = true := by
  refine ⟨fun s => ⟨?_, ?_, ?_⟩, rfl, rfl⟩
  · intro h
    constructor <;> simp [is_useful_commit, is_useful_message, h]
  · intro h1 h2
    have h3 : containsTok notUsefulSpaceTok (pyUpper (pyStrip s)) = false := by
      cases hb : containsTok notUsefulSpaceTok (pyUpper (pyStrip s)) with
      | false => rfl
      | true =>
        have hu : containsTok usefulTok (pyUpper (pyStrip s)) = true :=
          (containsTok_iff _ _).mpr
            (usefulTok_infix_notUsefulSpaceTok.trans
              ((containsTok_iff _ _).mp hb))
        rw [h2] at hu
        exact absurd hu (by simp)
    constructor <;> simp [is_useful_commit, is_useful_message, h1, h2, h3]
  · intro h1 h2 h3
    constructor <;> simp [is_useful_commit, is_useful_message, h1, h2, h3]

/-- Witness for C6 at three concrete responses. -/
theorem C6_usefulness_parse_witness :
    (is_useful_commit (some "NOT_USEFUL".data) = false ∧
      is_useful_message (some "NOT_USEFUL".data) = false) ∧
    (is_useful_commit (some "hmm, maybe".data) = true ∧
      is_useful_message (some "hmm, maybe".data) = false) ∧
    (is_useful_commit (some "USEFUL".data) = true ∧
      is_useful_message (some "USEFUL".data) = true) :=
  ⟨(C6_usefulness_parse.1 "NOT_USEFUL".data).1 (by decide),
   (C6_usefulness_parse.1 "hmm, maybe".data).2.1 (by decide) (by decide),
   (C6_usefulness_parse.1 "USEFUL".data).2.2 (by decide) (by decide)
     (by decide)⟩

/-! ## Claim C1: the content fitter's output estimate versus the budget

The claim asserts output `estimate ≤ budget` on every path.  It holds on the
pass-through and successful-summarization paths, but the two truncation paths
first cut to `budget * 4` characters and then append a marker, overshooting
the budget by up to 15 estimated tokens. -/

theorem estTokens_def (text : List Char) :
    estimate_tokens text = text.length / 4 := rfl

theorem estTokens_big : estimate_tokens (List.replicate 40000 'a') = 10000 :=
  (estTokens_def _).trans
    ((congrArg (fun n => n / 4) (List.length_replicate 40000 'a')).trans rfl)

theorem estTokens_big_not_le :
    ¬ estimate_tokens (List.replicate 40000 'a') ≤ 6000 := by
  rw [estTokens_big]; omega

theorem estTokens_big_gt :
    6000 < estimate_tokens (List.replicate 40000 'a') := by
  rw [estTokens_big]; omega

theorem chunkText_none_of_gt (text : List Char) (m : Nat)
    (h : ¬ estimate_tokens text ≤ m) :
    chunk_text none text m = text.take (m * 4) ++ noteTrunc := by
  rw [chunk_text, if_neg h]

theorem bigTrunc_len :
    ((List.replicate 40000 'a').take (6000 * 4) ++ noteTrunc).length =
      24041 := by
  rw [List.length_append, List.length_take, List.length_replicate,
    noteTrunc_len]
  norm_num

theorem estTokens_bigTrunc :
    estimate_tokens (chunk_text none (List.replicate 40000 'a') 6000) =
      6010 :=
  (congrArg estimate_tokens
      (chunkText_none_of_gt (List.replicate 40000 'a') 6000
        estTokens_big_not_le)).trans
    ((estTokens_def _).trans
      ((congrArg (fun n => n / 4) bigTrunc_len).trans rfl))

/-- C1 counterexample: the spec's highlighted instance — input estimated at
10,000 tokens, budget 6000, provider-failure truncation path — produces output
estimated at 6010 tokens, exceeding the budget. -/
theorem C1_counterexample :
    estimate_tokens (List.replicate 40000 'a') = 10000 ∧
    estimate_tokens (chunk_text none (List.replicate 40000 'a') 6000) =
      6010 ∧
    6000 < estimate_tokens (chunk_text none (List.replicate 40000 'a')
      6000) :=
  ⟨estTokens_big, estTokens_bigTrunc, by rw [estTokens_bigTrunc]; omega⟩

/-- C1 amended: on every path the output estimate is at most `budget + 15`
(the worst overshoot being the 60-character post-truncation marker); the
output estimate is within the budget itself on the pass-through path and on
the successful-summarization path (summary plus note fitting the budget) —
only the two hard-truncation paths overshoot. -/
theorem C1_amended (llm : Option (List Char)) (text : List Char)
    (max_tokens : Nat) :
    estimate_tokens (chunk_text llm text max_tokens) ≤ max_tokens + 15 ∧
    (estimate_tokens text ≤ max_tokens → chunk_text llm text max_tokens =
      text) ∧
    (∀ s, llm = some s → max_tokens < estimate_tokens text →
      estimate_tokens (pyStrip s ++ noteSummarized) ≤ max_tokens →
      chunk_text llm text max_tokens = pyStrip s ++ noteSummarized) := by
  by_cases h : estimate_tokens text ≤ max_tokens
  · refine ⟨?_, fun _ => by rw [chunk_text, if_pos h], fun s hs hgt _ => ?_⟩
    · rw [chunk_text, if_pos h]; omega
    · omega
  · cases llm with
    | none =>
      have hout : chunk_text none text max_tokens =
          text.take (max_tokens * 4) ++ noteTrunc := by
        rw [chunk_text, if_neg h]
      refine ⟨?_, fun h' => absurd h' h, fun s hs => Option.noConfusion hs⟩
      have hlen : (text.take (max_tokens * 4)).length ≤ max_tokens * 4 :=
        List.length_take_le _ _
      rw [hout]
      unfold estimate_tokens
      rw [List.length_append, noteTrunc_len]
      omega
    | some s =>
      by_cases h2 : max_tokens < estimate_tokens (pyStrip s ++ noteSummarized)
      · have hout : chunk_text (some s) text max_tokens =
            (pyStrip s ++ noteSummarized).take (max_tokens * 4) ++
              noteSumTrunc := by
          rw [chunk_text, if_neg h]
          simp only [if_pos h2]
        refine ⟨?_, fun h' => absurd h' h, fun s' hs' hgt hle => ?_⟩
        · have hlen : ((pyStrip s ++ noteSummarized).take
              (max_tokens * 4)).length ≤ max_tokens * 4 :=
            List.length_take_le _ _
          rw [hout]
          unfold estimate_tokens
          rw [List.length_append, noteSumTrunc_len]
          omega
        · cases hs'
          omega
      · have hout : chunk_text (some s) text max_tokens =
            pyStrip s ++ noteSummarized := by
          rw [chunk_text, if_neg h]
          simp only [if_neg h2]
        refine ⟨?_, fun h' => absurd h' h, fun s' hs' _ _ => ?_⟩
        · rw [hout]; omega
        · cases hs'
          exact hout

/-- Witness for C1 amended: the pass-through path at a short input and the
successful-summarization path at the 40,000-character input. -/
theorem C1_amended_witness :
    estimate_tokens (chunk_text none "abcd".data 6000) ≤ 6015 ∧
    chunk_text none "abcd".data 6000 = "abcd".data ∧
    chunk_text (some "short summary".data) (List.replicate 40000 'a') 6000 =
      pyStrip "short summary".data ++ noteSummarized :=
  ⟨(C1_amended none "abcd".data 6000).1,
   (C1_amended none "abcd".data 6000).2.1 (by decide),
   (C1_amended (some "short summary".data) (List.replicate 40000 'a')
      6000).2.2 "short summary".data rfl estTokens_big_gt (by decide)⟩

/-! ## Claim C2: the click-count invariant

The claim asserts `click_count == len(results_clicked)` and that
`results_clicked` never holds duplicates, for arbitrary caller-supplied
`results_clicked` arguments.  `save_query` stores the caller's list verbatim
(`memory.py:99-101`), so duplicates in the argument are stored as-is. -/

theorem extractClicked_clickedPayload (current : Payload) (cl : List String) :
    extractClicked (clickedPayload current cl) = cl := by
  unfold extractClicked clickedPayload
  rw [dictGet_insert_ne _ _ (by decide), dictGet_insert_self]

theorem extractClickCount_clickedPayload (current : Payload)
    (cl : List String) :
    extractClickCount (clickedPayload current cl) = cl.length := by
  unfold extractClickCount clickedPayload
  rw [dictGet_insert_self]

theorem clickInv_clickedPayload (current : Payload) (cl : List String) :
    clickInv (clickedPayload current cl) := by
  unfold clickInv
  rw [extractClicked_clickedPayload, extractClickCount_clickedPayload]

theorem dictGet_addUserId_ne (p : Payload) (user : Option String) {k : String}
    (hk : k ≠ "user_id") :
    dictGet (addUserId p user) k = dictGet p k := by
  rcases user with _ | u
  · rfl
  · by_cases hu : u == "" <;>
      simp [addUserId, hu, dictGet_insert_ne _ _ (Ne.symm hk)]

theorem dictGet_addSourcesSearched_ne (p : Payload)
    (ss : Option (List String)) {k : String} (hk : k ≠ "sources_searched") :
    dictGet (addSourcesSearched p ss) k = dictGet p k := by
  rcases ss with _ | l
  · rfl
  · by_cases hl : l.isEmpty <;>
      simp [addSourcesSearched, hl, dictGet_insert_ne _ _ (Ne.symm hk)]

theorem clickInv_addResultsClicked (p : Payload) (rc : Option (List String))
    (h1 : dictGet p "results_clicked" = none)
    (h2 : dictGet p "click_count" = none) :
    clickInv (addResultsClicked p rc) := by
  rcases rc with _ | l
  · unfold clickInv extractClicked extractClickCount addResultsClicked
    rw [h1, h2]
    rfl
  · by_cases hl : l.isEmpty
    · unfold clickInv
      simp only [addResultsClicked, if_pos hl]
      unfold extractClicked extractClickCount
      rw [h1, h2]
      rfl
    · unfold clickInv
      simp only [addResultsClicked, if_neg hl]
      unfold extractClicked extractClickCount
      rw [dictGet_insert_self, dictGet_insert_ne _ _ (by decide),
        dictGet_insert_self]

/-- C2 counterexample: saving a query with `results_clicked = ["a", "a"]`
stores the duplicate list verbatim (with `click_count = 2 = len`), refuting
the no-duplicates half of the invariant. -/
theorem C2_counterexample :
    save_query (fun _ => 0) "ts" 7 [] "t" "q" none (some ["a", "a"]) none 0 []
      = [⟨7, 0, save_query_payload "t" "ts" "q" none (some ["a", "a"]) none 0
          []⟩] ∧
    extractClicked (save_query_payload "t" "ts" "q" none (some ["a", "a"])
      none 0 []) = ["a", "a"] ∧
    extractClickCount (save_query_payload "t" "ts" "q" none (some ["a", "a"])
      none 0 []) = 2 ∧
    ¬ (["a", "a"] : List String).Nodup :=
  ⟨by decide, by decide, by decide, by decide⟩

/-- C2 amended: `click_count == len(results_clicked)` holds for the payload
built by every `save_query` call whose caller metadata does not override the
two reserved keys, and for every record `update_query_click` writes; moreover
`update_query_click` never introduces a duplicate (it appends `result_id`
only when absent).  However `save_query` stores the caller-supplied
`results_clicked` verbatim, so a duplicated argument is stored duplicated
(see the counterexample). -/
theorem C2_amended {σ : Type} [LinearOrder σ] :
    (∀ tenant ts query user rc ss n meta,
      (∀ kv ∈ meta, kv.1 ≠ "results_clicked" ∧ kv.1 ≠ "click_count") →
      clickInv (save_query_payload tenant ts query user rc ss n meta)) ∧
    (∀ (sim : Nat → Nat → σ) embed store tenant query result_id user,
      ∀ p' ∈ update_query_click sim embed store tenant query result_id user,
        p' ∈ store ∨
        (clickInv p'.payload ∧ ∃ p, p ∈ store ∧
          extractClicked p'.payload =
            extractClicked p.payload ++ [result_id] ∧
          result_id ∉ extractClicked p.payload ∧
          ((extractClicked p.payload).Nodup →
            (extractClicked p'.payload).Nodup))) := by
  constructor
  · intro tenant ts query user rc ss n meta hmeta
    have hcl : extractClicked (save_query_payload tenant ts query user rc ss
        n meta) = extractClicked (addResultsClicked (addUserId
          [("query", .vStr query), ("tenant_id", .vStr tenant),
           ("timestamp", .vStr ts), ("result_count", .vNat n),
           ("type", .vStr "query_memory")] user) rc) := by
      unfold extractClicked save_query_payload
      rw [dictGet_update_of_not_mem _ meta _ fun kv hkv => (hmeta kv hkv).1,
        dictGet_addSourcesSearched_ne _ _ (by decide)]
    have hcc : extractClickCount (save_query_payload tenant ts query user rc
        ss n meta) = extractClickCount (addResultsClicked (addUserId
          [("query", .vStr query), ("tenant_id", .vStr tenant),
           ("timestamp", .vStr ts), ("result_count", .vNat n),
           ("type", .vStr "query_memory")] user) rc) := by
      unfold extractClickCount save_query_payload
      rw [dictGet_update_of_not_mem _ meta _ fun kv hkv => (hmeta kv hkv).2,
        dictGet_addSourcesSearched_ne _ _ (by decide)]
    unfold clickInv
    rw [hcl, hcc]
    exact clickInv_addResultsClicked _ _
      ((dictGet_addUserId_ne _ _ (by decide)).trans rfl)
      ((dictGet_addUserId_ne _ _ (by decide)).trans rfl)
  · intro sim embed store tenant query result_id user p' hp'
    unfold update_query_click at hp'
    rcases hqp : queryPoints sim store (clickConds tenant user) (embed query)
        1 none with _ | ⟨sp, rest⟩
    · rw [hqp] at hp'
      exact Or.inl hp'
    · rw [hqp] at hp'
      have hp2 : p' ∈ (if (extractClicked sp.point.payload).contains
          result_id = true then store
          else setPayload store sp.point.id (clickedPayload sp.point.payload
            (extractClicked sp.point.payload ++ [result_id]))) := hp'
      by_cases hc : (extractClicked sp.point.payload).contains result_id
      · rw [if_pos hc] at hp2
        exact Or.inl hp2
      · rw [if_neg hc] at hp2
        unfold setPayload at hp2
        obtain ⟨p0, hp0, hmap⟩ := List.mem_map.mp hp2
        by_cases hid : p0.id == sp.point.id
        · rw [if_pos hid] at hmap
          have hspmem : sp.point ∈ store := by
            have : sp ∈ queryPoints sim store (clickConds tenant user)
                (embed query) 1 none := by
              rw [hqp]; exact List.mem_cons_self sp rest
            exact (mem_queryPoints this).1
          have hni : result_id ∉ extractClicked sp.point.payload := by
            intro hmem
            rw [List.contains, List.elem_iff.mpr hmem] at hc
            exact hc rfl
          refine Or.inr ⟨?_, sp.point, hspmem, ?_, hni, ?_⟩
          · rw [← hmap]
            exact clickInv_clickedPayload _ _
          · rw [← hmap]
            exact extractClicked_clickedPayload _ _
          · intro hnd
            rw [← hmap, extractClicked_clickedPayload,
              ← List.concat_eq_append]
            exact hnd.concat hni
        · rw [if_neg hid] at hmap
          rw [← hmap]
          exact Or.inl hp0

def c2Store : List QPoint := [⟨1, 0, [("tenant_id", PVal.vStr "t")]⟩]

/-- Witness for C2 amended: a concrete clean save and a concrete click
update. -/
theorem C2_amended_witness :
    clickInv (save_query_payload "t" "ts" "q" none (some ["a"]) none 0 []) ∧
    ((⟨1, 0, clickedPayload [("tenant_id", PVal.vStr "t")] ["r"]⟩ : QPoint) ∈
        c2Store ∨
      (clickInv (⟨1, 0, clickedPayload [("tenant_id", PVal.vStr "t")]
          ["r"]⟩ : QPoint).payload ∧
        ∃ p, p ∈ c2Store ∧
          extractClicked (⟨1, 0, clickedPayload
              [("tenant_id", PVal.vStr "t")] ["r"]⟩ : QPoint).payload =
            extractClicked p.payload ++ ["r"] ∧
          "r" ∉ extractClicked p.payload ∧
          ((extractClicked p.payload).Nodup →
            (extractClicked (⟨1, 0, clickedPayload
              [("tenant_id", PVal.vStr "t")] ["r"]⟩ : QPoint).payload).Nodup))) :=
  ⟨(C2_amended (σ := Int)).1 "t" "ts" "q" none (some ["a"]) none 0 []
      (by simp),
   (C2_amended (σ := Int)).2 (fun _ _ => 0) (fun _ => 0) c2Store "t" "q" "r"
      none _ (by decide)⟩

/-! ## Claim C7: idempotence of `update_query_click`

Case equations for `update_query_click`, and machinery showing that a payload
rewrite that preserves vectors and filter outcomes commutes with the
nearest-neighbor query. -/

theorem update_query_click_eq_nil {σ : Type} [LinearOrder σ]
    {sim : Nat → Nat → σ} {embed : String → Nat} {store : List QPoint}
    {tenant query result_id : String} {user : Option String}
    (hqp : queryPoints sim store (clickConds tenant user) (embed query) 1
      none = []) :
    update_query_click sim embed store tenant query result_id user =
      store := by
  unfold update_query_click
  rw [hqp]

theorem update_query_click_eq_contains {σ : Type} [LinearOrder σ]
    {sim : Nat → Nat → σ} {embed : String → Nat} {store : List QPoint}
    {tenant query result_id : String} {user : Option String}
    {sp : Scored σ} {rest : List (Scored σ)}
    (hqp : queryPoints sim store (clickConds tenant user) (embed query) 1
      none = sp :: rest)
    (hc : (extractClicked sp.point.payload).contains result_id = true) :
    update_query_click sim embed store tenant query result_id user =
      store := by
  unfold update_query_click
  rw [hqp]
  show (if (extractClicked sp.point.payload).contains result_id = true then
    store else _) = store
  rw [if_pos hc]

theorem update_query_click_eq_append {σ : Type} [LinearOrder σ]
    {sim : Nat → Nat → σ} {embed : String → Nat} {store : List QPoint}
    {tenant query result_id : String} {user : Option String}
    {sp : Scored σ} {rest : List (Scored σ)}
    (hqp : queryPoints sim store (clickConds tenant user) (embed query) 1
      none = sp :: rest)
    (hc : (extractClicked sp.point.payload).contains result_id = false) :
    update_query_click sim embed store tenant query result_id user =
      setPayload store sp.point.id (clickedPayload sp.point.payload
        (extractClicked sp.point.payload ++ [result_id])) := by
  unfold update_query_click
  rw [hqp]
  show (if (extractClicked sp.point.payload).contains result_id = true then
    store else _) = _
  rw [if_neg (by rw [hc]; exact Bool.false_ne_true)]

theorem orderedInsert_map_score {σ : Type} [LinearOrder σ]
    (g : Scored σ → Scored σ) (hg : ∀ x, (g x).score = x.score)
    (a : Scored σ) :
    ∀ l : List (Scored σ),
      List.orderedInsert byScoreDesc (g a) (l.map g) =
        (List.orderedInsert byScoreDesc a l).map g
  | [] => by simp
  | b :: t => by
    by_cases h : byScoreDesc a b
    · have h' : byScoreDesc (g a) (g b) := by
        unfold byScoreDesc at h ⊢
        rw [hg, hg]
        exact h
      simp [List.orderedInsert, h, h']
    · have h' : ¬ byScoreDesc (g a) (g b) := by
        unfold byScoreDesc at h ⊢
        rw [hg, hg]
        exact h
      simp [List.orderedInsert, h, h', orderedInsert_map_score g hg a t]

theorem insertionSort_map_score {σ : Type} [LinearOrder σ]
    (g : Scored σ → Scored σ) (hg : ∀ x, (g x).score = x.score) :
    ∀ l : List (Scored σ),
      List.insertionSort byScoreDesc (l.map g) =
        (List.insertionSort byScoreDesc l).map g
  | [] => rfl
  | a :: t => by
    simp only [List.map_cons, List.insertionSort,
      insertionSort_map_score g hg t, orderedInsert_map_score g hg a]

theorem all_congr_mem {α : Type} (l : List α) (f g : α → Bool)
    (h : ∀ a ∈ l, f a = g a) : l.all f = l.all g := by
  induction l with
  | nil => rfl
  | cons a t ih =>
    simp only [List.all_cons, h a (by simp),
      ih fun x hx => h x (by simp [hx])]

theorem queryPoints_map {σ : Type} [LinearOrder σ] (sim : Nat → Nat → σ)
    (store : List QPoint) (conds : List (String × PVal)) (qv lim : Nat)
    (g : QPoint → QPoint)
    (hvec : ∀ p ∈ store, (g p).vector = p.vector)
    (hfilt : ∀ p ∈ store,
      matchesConds conds (g p) = matchesConds conds p) :
    queryPoints sim (store.map g) conds qv lim none =
      (queryPoints sim store conds qv lim none).map
        fun sp => ⟨g sp.point, sp.score⟩ := by
  have h1 : (store.map g).filter (matchesConds conds) =
      (store.filter (matchesConds conds)).map g := by
    rw [List.filter_map]
    congr 1
    exact List.filter_congr fun p hp => hfilt p hp
  have h2 : (store.filter (matchesConds conds)).map
      ((fun p => Scored.mk (σ := σ) p (sim qv p.vector)) ∘ g) =
      ((store.filter (matchesConds conds)).map
        (fun p => Scored.mk p (sim qv p.vector))).map
          (fun sp => ⟨g sp.point, sp.score⟩) := by
    rw [List.map_map]
    refine List.map_congr_left fun p hp => ?_
    have hv := hvec p (List.mem_of_mem_filter hp)
    simp [Function.comp, hv]
  show (List.insertionSort byScoreDesc
      (((store.map g).filter (matchesConds conds)).map
        fun p => Scored.mk p (sim qv p.vector))).take lim =
    ((List.insertionSort byScoreDesc
      ((store.filter (matchesConds conds)).map
        fun p => Scored.mk p (sim qv p.vector))).take lim).map
          fun sp => ⟨g sp.point, sp.score⟩
  rw [h1, List.map_map, h2,
    insertionSort_map_score (fun sp => ⟨g sp.point, sp.score⟩) fun x => rfl,
    List.map_take]

theorem clickConds_keys (tenant : String) (user : Option String) :
    ∀ c ∈ clickConds tenant user, c.1 = "tenant_id" ∨ c.1 = "user_id" := by
  rcases user with _ | u
  · simp [clickConds]
  · by_cases hu : u == "" <;> simp [clickConds, hu]

theorem dictGet_clickedPayload_ne (current : Payload) (cl : List String)
    {k : String} (h1 : k ≠ "results_clicked") (h2 : k ≠ "click_count") :
    dictGet (clickedPayload current cl) k = dictGet current k := by
  unfold clickedPayload
  rw [dictGet_insert_ne _ _ (Ne.symm h2), dictGet_insert_ne _ _ (Ne.symm h1)]

theorem matchesConds_clickConds_clickedPayload (tenant : String)
    (user : Option String) (p : QPoint) (cl : List String) :
    matchesConds (clickConds tenant user)
      { p with payload := clickedPayload p.payload cl } =
    matchesConds (clickConds tenant user) p := by
  unfold matchesConds
  refine all_congr_mem _ _ _ fun c hc => ?_
  show (dictGet (clickedPayload p.payload cl) c.1 == some c.2) =
    (dictGet p.payload c.1 == some c.2)
  rcases clickConds_keys tenant user c hc with h | h <;>
    rw [h, dictGet_clickedPayload_ne _ _ (by decide) (by decide)]

def c7Store : List QPoint :=
  [⟨1, 0, [("tenant_id", PVal.vStr "t"),
           ("results_clicked", PVal.vList ["r", "r"]),
           ("click_count", PVal.vNat 2)]⟩]

/-- C7 counterexample: against a store whose matched record already holds the
clicked id twice (reachable via `save_query` with a duplicated
`results_clicked` argument, see C2), two identical `update_query_click` calls
leave `results_clicked` containing "r" twice — not "exactly once" as
claimed.  The lookup does match a record, and the second call indeed does not
modify it. -/
theorem C7_counterexample :
    update_query_click (fun _ _ => (0 : Int)) (fun _ => 0) c7Store "t" "q"
      "r" none = c7Store ∧
    update_query_click (fun _ _ => (0 : Int)) (fun _ => 0)
      (update_query_click (fun _ _ => (0 : Int)) (fun _ => 0) c7Store "t"
        "q" "r" none) "t" "q" "r" none = c7Store ∧
    (∀ p ∈ c7Store, (extractClicked p.payload).count "r" = 2) ∧
    queryPoints (fun _ _ => (0 : Int)) c7Store (clickConds "t" none) 0 1
      none ≠ [] := by
  decide

/-- C7 amended: `update_query_click` is idempotent as a state transformer
(assuming distinct point ids, as the vector store guarantees): the second
identical call never modifies anything.  When the lookup matches a record
whose `results_clicked` holds `result_id` at most once — in particular not at
all — the updated store's record holds it exactly once.  The "exactly once"
conclusion fails only for records that already held a duplicate (see the
counterexample). -/
theorem C7_amended {σ : Type} [LinearOrder σ] (sim : Nat → Nat → σ)
    (embed : String → Nat) (store : List QPoint)
    (tenant query result_id : String) (user : Option String) :
    ((store.map QPoint.id).Nodup →
      update_query_click sim embed
        (update_query_click sim embed store tenant query result_id user)
        tenant query result_id user =
      update_query_click sim embed store tenant query result_id user) ∧
    (∀ (sp : Scored σ) rest,
      queryPoints sim store (clickConds tenant user) (embed query) 1 none =
        sp :: rest →
      (extractClicked sp.point.payload).count result_id ≤ 1 →
      ∃ p' ∈ update_query_click sim embed store tenant query result_id user,
        p'.id = sp.point.id ∧
        (extractClicked p'.payload).count result_id = 1) := by
  constructor
  · intro hnd
    rcases hqp : queryPoints sim store (clickConds tenant user) (embed query)
        1 none with _ | ⟨sp, rest⟩
    · rw [update_query_click_eq_nil hqp]
      exact update_query_click_eq_nil hqp
    · by_cases hc : (extractClicked sp.point.payload).contains result_id
      · rw [update_query_click_eq_contains hqp hc]
        exact update_query_click_eq_contains hqp hc
      · have hcf : (extractClicked sp.point.payload).contains result_id =
            false := by
          rcases hb : (extractClicked sp.point.payload).contains result_id
          · rfl
          · exact absurd hb hc
        have hsp_mem : sp.point ∈ store := by
          have hm : sp ∈ queryPoints sim store (clickConds tenant user)
              (embed query) 1 none := by
            rw [hqp]; exact List.mem_cons_self sp rest
          exact (mem_queryPoints hm).1
        have h1 := update_query_click_eq_append hqp hcf
        set pay' := clickedPayload sp.point.payload
          (extractClicked sp.point.payload ++ [result_id]) with hpay'
        set g : QPoint → QPoint := fun p =>
          if p.id == sp.point.id then { p with payload := pay' } else p
          with hgdef
        have hS1 : update_query_click sim embed store tenant query result_id
            user = store.map g := h1
        have hvec : ∀ p ∈ store, (g p).vector = p.vector := by
          intro p _
          by_cases h : p.id = sp.point.id <;> simp [hgdef, h]
        have hfilt : ∀ p ∈ store, matchesConds (clickConds tenant user)
            (g p) = matchesConds (clickConds tenant user) p := by
          intro p hp
          by_cases h : p.id = sp.point.id
          · have hpe : p = sp.point :=
              List.inj_on_of_nodup_map hnd hp hsp_mem h
            have hgp : g p = { p with payload := pay' } := by
              simp [hgdef, h]
            rw [hgp, hpe, hpay']
            exact matchesConds_clickConds_clickedPayload tenant user
              sp.point _
          · have hgp : g p = p := by simp [hgdef, h]
            rw [hgp]
        have hq2 : queryPoints sim (store.map g) (clickConds tenant user)
            (embed query) 1 none =
            (⟨g sp.point, sp.score⟩ : Scored σ) ::
              rest.map (fun x => ⟨g x.point, x.score⟩) := by
          rw [queryPoints_map sim store (clickConds tenant user)
            (embed query) 1 g hvec hfilt, hqp, List.map_cons]
        have hgsp : (g sp.point).payload = pay' := by
          simp [hgdef]
        have hcontains : (extractClicked
            ((⟨g sp.point, sp.score⟩ : Scored σ).point.payload)).contains
              result_id = true := by
          show (extractClicked (g sp.point).payload).contains result_id =
            true
          rw [hgsp, hpay', extractClicked_clickedPayload]
          exact List.elem_iff.mpr (by simp)
        rw [hS1]
        exact update_query_click_eq_contains hq2 hcontains
  · intro sp rest hqp hcount
    have hsp_mem : sp.point ∈ store := by
      have hm : sp ∈ queryPoints sim store (clickConds tenant user)
          (embed query) 1 none := by
        rw [hqp]; exact List.mem_cons_self sp rest
      exact (mem_queryPoints hm).1
    by_cases hc : (extractClicked sp.point.payload).contains result_id
    · have h1 := update_query_click_eq_contains hqp hc
      refine ⟨sp.point, by rw [h1]; exact hsp_mem, rfl, ?_⟩
      have hmem : result_id ∈ extractClicked sp.point.payload :=
        List.elem_iff.mp hc
      have hpos : 0 < (extractClicked sp.point.payload).count result_id :=
        List.count_pos_iff.mpr hmem
      omega
    · have hcf : (extractClicked sp.point.payload).contains result_id =
          false := by
        rcases hb : (extractClicked sp.point.payload).contains result_id
        · rfl
        · exact absurd hb hc
      have h1 := update_query_click_eq_append hqp hcf
      set pay' := clickedPayload sp.point.payload
        (extractClicked sp.point.payload ++ [result_id]) with hpay'
      have hmem' : ({ sp.point with payload := pay' } : QPoint) ∈
          setPayload store sp.point.id pay' := by
        unfold setPayload
        have hmm := List.mem_map_of_mem (fun p =>
          if p.id == sp.point.id then { p with payload := pay' } else p)
          hsp_mem
        simpa using hmm
      refine ⟨{ sp.point with payload := pay' }, by rw [h1]; exact hmem',
        rfl, ?_⟩
      show (extractClicked pay').count result_id = 1
      rw [hpay', extractClicked_clickedPayload, List.count_append]
      have h0 : (extractClicked sp.point.payload).count result_id = 0 :=
        List.count_eq_zero.mpr fun hm => by
          have hct : (extractClicked sp.point.payload).contains result_id =
              true := List.elem_iff.mpr hm
          rw [hcf] at hct
          exact Bool.false_ne_true hct
      simp [h0]

def c7WitStore : List QPoint := [⟨1, 0, [("tenant_id", PVal.vStr "t")]⟩]

/-- Witness for C7 amended: a concrete store with one clean tenant record. -/
theorem C7_amended_witness :
    update_query_click (fun _ _ => (0 : Int)) (fun _ => 0)
      (update_query_click (fun _ _ => (0 : Int)) (fun _ => 0) c7WitStore "t"
        "q" "r" none) "t" "q" "r" none =
      update_query_click (fun _ _ => (0 : Int)) (fun _ => 0) c7WitStore "t"
        "q" "r" none ∧
    ∃ p' ∈ update_query_click (fun _ _ => (0 : Int)) (fun _ => 0) c7WitStore
        "t" "q" "r" none,
      p'.id = 1 ∧ (extractClicked p'.payload).count "r" = 1 := by
  refine ⟨(C7_amended (fun _ _ => (0 : Int)) (fun _ => 0) c7WitStore "t" "q"
    "r" none).1 (by decide), ?_⟩
  obtain ⟨p', hp', hid, hcnt⟩ := (C7_amended (fun _ _ => (0 : Int))
    (fun _ => 0) c7WitStore "t" "q" "r" none).2
    ⟨⟨1, 0, [("tenant_id", PVal.vStr "t")]⟩, 0⟩ [] (by decide) (by decide)
  exact ⟨p', hp', hid, hcnt⟩

/-! ## Claim C3: `get_similar_queries` guarantees -/

/-- C3: every record returned by `get_similar_queries` has score at least
`min_score`; the list is ordered by descending similarity score; its length is
at most `limit`; every returned record comes from a stored point passing the
tenant/user filter; and when a (truthy) `user_id` is supplied every returned
record carries that user id. -/
theorem C3_similar_queries {σ : Type} [LinearOrder σ] (sim : Nat → Nat → σ)
    (embed : String → Nat) (store : List QPoint) (tenant query : String)
    (lim : Nat) (user : Option String) (min_score : σ) :
    (∀ r ∈ get_similar_queries sim embed store tenant query lim user
        min_score, min_score ≤ r.score) ∧
    List.Sorted (fun a b : SimRecord σ => b.score ≤ a.score)
      (get_similar_queries sim embed store tenant query lim user
        min_score) ∧
    (get_similar_queries sim embed store tenant query lim user
      min_score).length ≤ lim ∧
    (∀ r ∈ get_similar_queries sim embed store tenant query lim user
        min_score, ∃ p ∈ store,
        matchesConds (simConds tenant user) p = true ∧
        r = extractSimRecord ⟨p, sim (embed query) p.vector⟩) ∧
    (∀ u, user = some u → u ≠ "" →
      ∀ r ∈ get_similar_queries sim embed store tenant query lim user
        min_score, r.user_id = some (PVal.vStr u)) := by
  refine ⟨?_, ?_, ?_, ?_, ?_⟩
  · intro r hr
    obtain ⟨sp, hsp, hr⟩ := List.mem_map.mp hr
    have h := (mem_queryPoints hsp).2.2.2 min_score rfl
    rw [← hr]
    exact h
  · refine List.Pairwise.map _ ?_ (sorted_queryPoints sim store
      (simConds tenant user) (embed query) lim (some min_score))
    intro a b hab
    exact hab
  · unfold get_similar_queries
    rw [List.length_map]
    exact length_queryPoints sim store (simConds tenant user) (embed query)
      lim (some min_score)
  · intro r hr
    obtain ⟨sp, hsp, hr⟩ := List.mem_map.mp hr
    obtain ⟨hmem, hmatch, hscore, _⟩ := mem_queryPoints hsp
    refine ⟨sp.point, hmem, hmatch, ?_⟩
    rw [← hr]
    cases sp with
    | mk point score => rw [show (Scored.mk point score).score =
        score from rfl] at hscore
                        rw [hscore]
  · intro u hu hne r hr
    subst hu
    obtain ⟨sp, hsp, hr⟩ := List.mem_map.mp hr
    have hmatch := (mem_queryPoints hsp).2.1
    have hbe : (u == "") = false := by
      rcases hb : u == ""
      · rfl
      · exact absurd (by simpa using hb) hne
    simp only [simConds, hbe, Bool.false_eq_true, if_false, matchesConds,
      List.all_cons, List.all_nil, Bool.and_true, Bool.and_eq_true,
      beq_iff_eq] at hmatch
    rw [← hr]
    show dictGet sp.point.payload "user_id" = some (PVal.vStr u)
    exact hmatch.1

def c3Store : List QPoint :=
  [⟨1, 5, [("tenant_id", PVal.vStr "t"), ("user_id", PVal.vStr "alice")]⟩]

/-- Witness for C3 at a concrete store and query. -/
theorem C3_similar_queries_witness :
    (3 : Int) ≤ (extractSimRecord (σ := Int)
      ⟨⟨1, 5, [("tenant_id", PVal.vStr "t"),
               ("user_id", PVal.vStr "alice")]⟩, 5⟩).score ∧
    (extractSimRecord (σ := Int)
      ⟨⟨1, 5, [("tenant_id", PVal.vStr "t"),
               ("user_id", PVal.vStr "alice")]⟩, 5⟩).user_id =
      some (PVal.vStr "alice") ∧
    (get_similar_queries (fun _ v => (v : Int)) (fun _ => 0) c3Store "t"
      "dq" 5 (some "alice") 3).length ≤ 5 :=
  ⟨(C3_similar_queries (fun _ v => (v : Int)) (fun _ => 0) c3Store "t" "dq"
      5 (some "alice") 3).1 _ (by decide),
   (C3_similar_queries (fun _ v => (v : Int)) (fun _ => 0) c3Store "t" "dq"
      5 (some "alice") 3).2.2.2.2 "alice" rfl (by decide) _ (by decide),
   (C3_similar_queries (fun _ v => (v : Int)) (fun _ => 0) c3Store "t" "dq"
      5 (some "alice") 3).2.2.1⟩

/-! ## Claim C10: falsy fields are omitted from the saved payload -/

theorem addUserId_empty (p : Payload) {user : Option String}
    (h : user = none ∨ user = some "") : addUserId p user = p := by
  rcases h with h | h <;> subst h <;> rfl

theorem addResultsClicked_empty (p : Payload) {rc : Option (List String)}
    (h : rc = none ∨ rc = some []) : addResultsClicked p rc = p := by
  rcases h with h | h <;> subst h <;> rfl

theorem addSourcesSearched_empty (p : Payload) {ss : Option (List String)}
    (h : ss = none ∨ ss = some []) : addSourcesSearched p ss = p := by
  rcases h with h | h <;> subst h <;> rfl

theorem dictGet_addResultsClicked_ne (p : Payload)
    (rc : Option (List String)) {k : String} (h1 : k ≠ "results_clicked")
    (h2 : k ≠ "click_count") :
    dictGet (addResultsClicked p rc) k = dictGet p k := by
  rcases rc with _ | l
  · rfl
  · by_cases hl : l.isEmpty <;>
      simp [addResultsClicked, hl, dictGet_insert_ne _ _ (Ne.symm h2),
        dictGet_insert_ne _ _ (Ne.symm h1)]

/-- C10: when `results_clicked` is `None` or empty, the payload `save_query`
builds contains neither a `results_clicked` nor a `click_count` key; likewise
`user_id` (`None`/empty string) and `sources_searched` (`None`/empty list)
are omitted; and the read path (`get_similar_queries`-style extraction,
`payload.get(k, default)`) then reports `click_count = 0` and
`sources_searched = []`.  (The caller metadata is assumed not to smuggle those
keys back in, since `payload.update(metadata)` could override anything.) -/
theorem C10_save_query_omits_falsy (tenant ts query : String)
    (user : Option String) (rc ss : Option (List String)) (n : Nat)
    (meta : Payload) {σ : Type} [LinearOrder σ] (score : σ)
    (hmeta : ∀ kv ∈ meta, kv.1 ≠ "results_clicked" ∧ kv.1 ≠ "click_count" ∧
      kv.1 ≠ "user_id" ∧ kv.1 ≠ "sources_searched") :
    ((rc = none ∨ rc = some []) →
      dictGet (save_query_payload tenant ts query user rc ss n meta)
        "results_clicked" = none ∧
      dictGet (save_query_payload tenant ts query user rc ss n meta)
        "click_count" = none ∧
      (extractSimRecord (σ := σ) ⟨⟨0, 0, save_query_payload tenant ts query
        user rc ss n meta⟩, score⟩).click_count = PVal.vNat 0) ∧
    ((user = none ∨ user = some "") →
      dictGet (save_query_payload tenant ts query user rc ss n meta)
        "user_id" = none) ∧
    ((ss = none ∨ ss = some []) →
      dictGet (save_query_payload tenant ts query user rc ss n meta)
        "sources_searched" = none ∧
      (extractSimRecord (σ := σ) ⟨⟨0, 0, save_query_payload tenant ts query
        user rc ss n meta⟩, score⟩).sources_searched = PVal.vList []) := by
  refine ⟨?_, ?_, ?_⟩
  · intro h
    have h1 : dictGet (save_query_payload tenant ts query user rc ss n meta)
        "results_clicked" = none := by
      unfold save_query_payload
      rw [dictGet_update_of_not_mem _ meta _ fun kv hkv => (hmeta kv hkv).1,
        dictGet_addSourcesSearched_ne _ _ (by decide),
        addResultsClicked_empty _ h,
        dictGet_addUserId_ne _ _ (by decide)]
      rfl
    have h2 : dictGet (save_query_payload tenant ts query user rc ss n meta)
        "click_count" = none := by
      unfold save_query_payload
      rw [dictGet_update_of_not_mem _ meta _
          fun kv hkv => (hmeta kv hkv).2.1,
        dictGet_addSourcesSearched_ne _ _ (by decide),
        addResultsClicked_empty _ h,
        dictGet_addUserId_ne _ _ (by decide)]
      rfl
    refine ⟨h1, h2, ?_⟩
    show (dictGet (save_query_payload tenant ts query user rc ss n meta)
      "click_count").getD (PVal.vNat 0) = PVal.vNat 0
    rw [h2]
    rfl
  · intro h
    unfold save_query_payload
    rw [dictGet_update_of_not_mem _ meta _
        fun kv hkv => (hmeta kv hkv).2.2.1,
      dictGet_addSourcesSearched_ne _ _ (by decide),
      dictGet_addResultsClicked_ne _ _ (by decide) (by decide),
      addUserId_empty _ h]
    rfl
  · intro h
    have h1 : dictGet (save_query_payload tenant ts query user rc ss n meta)
        "sources_searched" = none := by
      unfold save_query_payload
      rw [dictGet_update_of_not_mem _ meta _
          fun kv hkv => (hmeta kv hkv).2.2.2,
        addSourcesSearched_empty _ h,
        dictGet_addResultsClicked_ne _ _ (by decide) (by decide),
        dictGet_addUserId_ne _ _ (by decide)]
      rfl
    refine ⟨h1, ?_⟩
    show (dictGet (save_query_payload tenant ts query user rc ss n meta)
      "sources_searched").getD (PVal.vList []) = PVal.vList []
    rw [h1]
    rfl

/-- Witness for C10 at a concrete degenerate save. -/
theorem C10_save_query_omits_falsy_witness :
    dictGet (save_query_payload "t" "ts" "q" (some "") (some []) none 3
      [("extra", PVal.vNat 1)]) "results_clicked" = none ∧
    dictGet (save_query_payload "t" "ts" "q" (some "") (some []) none 3
      [("extra", PVal.vNat 1)]) "user_id" = none ∧
    dictGet (save_query_payload "t" "ts" "q" (some "") (some []) none 3
      [("extra", PVal.vNat 1)]) "sources_searched" = none ∧
    (extractSimRecord (σ := Int) ⟨⟨0, 0, save_query_payload "t" "ts" "q"
      (some "") (some []) none 3 [("extra", PVal.vNat 1)]⟩,
      0⟩).click_count = PVal.vNat 0 := by
  have h := C10_save_query_omits_falsy "t" "ts" "q" (some "") (some [])
    none 3 [("extra", PVal.vNat 1)] (σ := Int) 0 (by decide)
  exact ⟨(h.1 (Or.inr rfl)).1, h.2.1 (Or.inr rfl), (h.2.2 (Or.inl rfl)).1,
    (h.1 (Or.inr rfl)).2.2⟩

/-! ## Claim C4: `get_popular_queries` aggregation and ranking -/

/-- The `query_stats` entry for `t` (first — and with unique keys, only —
entry), with count 0 when absent. -/
def baseCount (acc : List PopStats) (t : String) : Nat :=
  match acc.find? (fun s => s.query == t) with
  | some s => s.count
  | none => 0

def baseClicks (acc : List PopStats) (t : String) : Nat :=
  match acc.find? (fun s => s.query == t) with
  | some s => s.total_clicks
  | none => 0

theorem bumpStats_query (s : PopStats) (q : HistRecord) :
    (bumpStats s q).query = s.query := rfl

theorem base_aggStep (acc : List PopStats) (q : HistRecord) (t : String) :
    baseCount (aggStep acc q) t =
      baseCount acc t + (if q.query = t then 1 else 0) ∧
    baseClicks (aggStep acc q) t =
      baseClicks acc t + (if q.query = t then q.click_count else 0) := by
  unfold aggStep
  by_cases hany : acc.any (fun s => s.query == q.query)
  · rw [if_pos hany]
    unfold baseCount baseClicks
    rw [List.find?_map]
    have hpred : ((fun s => s.query == t) ∘
        (fun s => if s.query == q.query then bumpStats s q else s)) =
        fun s : PopStats => s.query == t := by
      funext s
      by_cases h : s.query = q.query
      · simp [h, bumpStats_query]
      · simp [h]
    rw [hpred]
    by_cases ht : q.query = t
    · subst ht
      have hsome : (acc.find? fun s => s.query == q.query).isSome := by
        rw [List.find?_isSome]
        exact List.any_eq_true.mp hany
      obtain ⟨s₁, hs₁⟩ := Option.isSome_iff_exists.mp hsome
      have hp : s₁.query = q.query := by simpa using List.find?_some hs₁
      rw [hs₁]
      simp [Option.map, hp, bumpStats]
    · rcases hfind : acc.find? (fun s => s.query == t) with _ | s₁
      · simp [hfind, ht]
      · have hs₁q : s₁.query = t := by simpa using List.find?_some hfind
        have hne2 : ¬ s₁.query = q.query := by
          rw [hs₁q]
          exact fun h => ht h.symm
        simp [hfind, ht, hne2]
  · rw [if_neg hany]
    unfold baseCount baseClicks
    rw [List.find?_append]
    by_cases ht : q.query = t
    · subst ht
      have hnone : acc.find? (fun s => s.query == q.query) = none := by
        rcases hfind : acc.find? (fun s => s.query == q.query) with _ | s₁
        · exact hfind
        · exact absurd (List.any_eq_true.mpr ⟨s₁,
            List.mem_of_find?_eq_some hfind, List.find?_some hfind⟩)
            (by simpa using hany)
      rw [hnone]
      simp [List.find?, bumpStats, initStats]
    · rcases hfind : acc.find? (fun s => s.query == t) with _ | s₁
      · have hnot : ((bumpStats (initStats q) q).query == t) = false := by
          rw [bumpStats_query]
          show (q.query == t) = false
          simp [ht]
        simp [hfind, List.find?, hnot, ht]
      · simp [hfind, ht]

theorem base_foldl (recs : List HistRecord) : ∀ (acc : List PopStats)
    (t : String),
    baseCount (recs.foldl aggStep acc) t =
      baseCount acc t + (recs.filter fun q => q.query == t).length ∧
    baseClicks (recs.foldl aggStep acc) t =
      baseClicks acc t +
        ((recs.filter fun q => q.query == t).map
          HistRecord.click_count).sum := by
  induction recs with
  | nil => intro acc t; simp
  | cons q rest ih =>
    intro acc t
    have hstep := base_aggStep acc q t
    have hih := ih (aggStep acc q) t
    rw [List.foldl_cons]
    by_cases ht : q.query = t
    · have hbt : (q.query == t) = true := by simpa using ht
      constructor
      · rw [hih.1, hstep.1, List.filter_cons, hbt]
        simp [ht]
        omega
      · rw [hih.2, hstep.2, List.filter_cons, hbt]
        simp [ht]
        omega
    · have hbt : (q.query == t) = false := by simpa using ht
      constructor
      · rw [hih.1, hstep.1, List.filter_cons, hbt]
        simp [ht]
      · rw [hih.2, hstep.2, List.filter_cons, hbt]
        simp [ht]

theorem aggStep_keys_nodup (acc : List PopStats) (q : HistRecord)
    (h : (acc.map PopStats.query).Nodup) :
    ((aggStep acc q).map PopStats.query).Nodup := by
  unfold aggStep
  by_cases hany : acc.any (fun s => s.query == q.query)
  · rw [if_pos hany]
    have heq : (acc.map fun s => if s.query == q.query then bumpStats s q
        else s).map PopStats.query = acc.map PopStats.query := by
      rw [List.map_map]
      refine List.map_congr_left fun s _ => ?_
      by_cases hs : s.query = q.query
      · simp [hs, bumpStats_query]
      · simp [hs]
    rw [heq]
    exact h
  · rw [if_neg hany, List.map_append]
    have hnotin : q.query ∉ acc.map PopStats.query := by
      intro hmem
      obtain ⟨s, hsmem, hsq⟩ := List.mem_map.mp hmem
      exact hany (List.any_eq_true.mpr ⟨s, hsmem, beq_iff_eq.mpr hsq⟩)
    simp only [List.map_cons, List.map_nil, bumpStats_query]
    rw [List.nodup_append]
    exact ⟨h, List.nodup_singleton _, by
      simp only [initStats]
      intro x hx
      simp only [List.mem_singleton]
      intro hxq
      exact hnotin (hxq ▸ hx)⟩

theorem aggregate_keys_nodup (recs : List HistRecord) :
    ((aggregate recs).map PopStats.query).Nodup := by
  unfold aggregate
  have h : ∀ acc : List PopStats, (acc.map PopStats.query).Nodup →
      ((recs.foldl aggStep acc).map PopStats.query).Nodup := by
    induction recs with
    | nil => intro acc hacc; exact hacc
    | cons q rest ih =>
      intro acc hacc
      rw [List.foldl_cons]
      exact ih _ (aggStep_keys_nodup acc q hacc)
  exact h [] (by simp)

theorem find?_eq_of_mem_nodup {acc : List PopStats}
    (hnd : (acc.map PopStats.query).Nodup) {s : PopStats} (hs : s ∈ acc) :
    acc.find? (fun x => x.query == s.query) = some s := by
  induction acc with
  | nil => cases hs
  | cons a t ih =>
    rcases List.mem_cons.mp hs with h | h
    · subst h
      simp [List.find?]
    · rw [List.map_cons] at hnd
      have hnd' := List.nodup_cons.mp hnd
      have ha : (a.query == s.query) = false := by
        rcases hb : a.query == s.query
        · rfl
        · have hmem : s.query ∈ t.map PopStats.query :=
            List.mem_map_of_mem PopStats.query h
          rw [← beq_iff_eq.mp hb] at hmem
          exact absurd hmem hnd'.1
      have hstep : List.find? (fun x => x.query == s.query) (a :: t) =
          List.find? (fun x => x.query == s.query) t := by
        simp [List.find?_cons, ha]
      rw [hstep]
      exact ih hnd'.2 h

theorem aggregate_spec (recs : List HistRecord) :
    ∀ s ∈ aggregate recs,
      s.count = (recs.filter fun q => q.query == s.query).length ∧
      s.total_clicks = ((recs.filter fun q => q.query == s.query).map
        HistRecord.click_count).sum := by
  intro s hs
  have hnd := aggregate_keys_nodup recs
  have hfind := find?_eq_of_mem_nodup hnd hs
  have hbase := base_foldl recs [] s.query
  unfold aggregate at hfind
  constructor
  · have h1 : baseCount (recs.foldl aggStep []) s.query = s.count := by
      unfold baseCount
      rw [hfind]
    have h2 : baseCount [] s.query = 0 := rfl
    rw [← h1, hbase.1, h2, Nat.zero_add]
  · have h1 : baseClicks (recs.foldl aggStep []) s.query =
        s.total_clicks := by
      unfold baseClicks
      rw [hfind]
    have h2 : baseClicks [] s.query = 0 := rfl
    rw [← h1, hbase.2, h2, Nat.zero_add]

/-- 5 saves of "qa" with no clicks, 2 saves of "qb" with 15 clicks each
(total 30). -/
def recs5and2 : List HistRecord :=
  [⟨"qa", "ts", none, 0, []⟩, ⟨"qa", "ts", none, 0, []⟩,
   ⟨"qa", "ts", none, 0, []⟩, ⟨"qa", "ts", none, 0, []⟩,
   ⟨"qa", "ts", none, 0, []⟩,
   ⟨"qb", "ts", none, 15, []⟩, ⟨"qb", "ts", none, 15, []⟩]

/-- C4: `get_popular_queries` groups the fetched history records by exact
query text (each output group's `count`/`total_clicks` aggregate exactly the
records with that text, and no text appears twice), attaches
`popularity_score = count * (1 + total_clicks / 10)`, sorts by descending
score, truncates to `limit`; consequently "qa" saved 5 times with 0 clicks
(score 5) ranks below "qb" saved 2 times with 30 total clicks (score 8). -/
theorem C4_popular_queries (recent : List HistRecord) (lim : Nat) :
    List.Sorted byPopDesc (get_popular_queries recent lim) ∧
    (get_popular_queries recent lim).length ≤ lim ∧
    (∀ r ∈ get_popular_queries recent lim,
      r.popularity_score =
        (r.count : ℚ) * (1 + (r.total_clicks : ℚ) / 10)) ∧
    (∀ r ∈ get_popular_queries recent lim,
      r.count = (recent.filter fun q => q.query == r.query).length ∧
      r.total_clicks = ((recent.filter fun q => q.query == r.query).map
        HistRecord.click_count).sum) ∧
    ((get_popular_queries recent lim).map PopRecord.query).Nodup ∧
    ((get_popular_queries recs5and2 10).map PopRecord.query =
        ["qb", "qa"] ∧
      (get_popular_queries recs5and2 10).map PopRecord.popularity_score =
        [8, 5]) := by
  have hmem : ∀ r ∈ get_popular_queries recent lim, ∃ s ∈ aggregate recent,
      r = { query := s.query, count := s.count,
            total_clicks := s.total_clicks, last_seen := s.last_seen,
            sources := s.sources,
            popularity_score :=
              (s.count : ℚ) * (1 + (s.total_clicks : ℚ) / 10) } := by
    intro r hr
    have h1 := List.take_subset lim _ hr
    have h2 := (List.perm_insertionSort byPopDesc _).mem_iff.mp h1
    obtain ⟨s, hs, hrs⟩ := List.mem_map.mp h2
    exact ⟨s, hs, hrs.symm⟩
  refine ⟨?_, ?_, ?_, ?_, ?_, ?_⟩
  · exact (List.sorted_insertionSort byPopDesc _).sublist
      (List.take_sublist _ _)
  · exact List.length_take_le _ _
  · intro r hr
    obtain ⟨s, _, hrs⟩ := hmem r hr
    rw [hrs]
  · intro r hr
    obtain ⟨s, hs, hrs⟩ := hmem r hr
    have hspec := aggregate_spec recent s hs
    rw [hrs]
    exact hspec
  · have h1 : ((aggregate recent).map fun s =>
        ({ query := s.query, count := s.count,
           total_clicks := s.total_clicks, last_seen := s.last_seen,
           sources := s.sources,
           popularity_score :=
             (s.count : ℚ) * (1 + (s.total_clicks : ℚ) / 10) } :
          PopRecord)).map PopRecord.query =
        (aggregate recent).map PopStats.query := by
      rw [List.map_map]
      exact List.map_congr_left fun s _ => rfl
    have h2 : (List.insertionSort byPopDesc ((aggregate recent).map fun s =>
        ({ query := s.query, count := s.count,
           total_clicks := s.total_clicks, last_seen := s.last_seen,
           sources := s.sources,
           popularity_score :=
             (s.count : ℚ) * (1 + (s.total_clicks : ℚ) / 10) } :
          PopRecord))).map PopRecord.query |>.Nodup := by
      refine (List.Perm.nodup_iff ?_).mpr
        (h1 ▸ aggregate_keys_nodup recent)
      exact (List.perm_insertionSort byPopDesc _).map PopRecord.query
    show ((List.insertionSort byPopDesc _).take lim).map
      PopRecord.query |>.Nodup
    rw [List.map_take]
    exact h2.sublist (List.take_sublist _ _)
  · have hlt : ¬ (("ts" : String) < "ts") := lt_irrefl _
    have hagg : aggregate recs5and2 =
        [⟨"qa", 5, 0, "ts", []⟩, ⟨"qb", 2, 30, "ts", []⟩] := by
      simp [aggregate, recs5and2, aggStep, bumpStats, initStats, hlt]
    have hpop : get_popular_queries recs5and2 10 =
        [⟨"qb", 2, 30, "ts", [], (2 : ℚ) * (1 + (30 : ℚ) / 10)⟩,
         ⟨"qa", 5, 0, "ts", [], (5 : ℚ) * (1 + (0 : ℚ) / 10)⟩] := by
      unfold get_popular_queries
      rw [hagg]
      simp only [List.map_cons, List.map_nil, List.insertionSort,
        List.orderedInsert]
      norm_num [byPopDesc]
    rw [hpop]
    constructor
    · rfl
    · show ([(2 : ℚ) * (1 + (30 : ℚ) / 10),
        (5 : ℚ) * (1 + (0 : ℚ) / 10)] : List ℚ) = [8, 5]
      norm_num

/-- Witness for C4 at the concrete 5-vs-2 record list. -/
theorem C4_popular_queries_witness :
    (∀ r ∈ get_popular_queries recs5and2 10,
      r.popularity_score =
        (r.count : ℚ) * (1 + (r.total_clicks : ℚ) / 10)) ∧
    (get_popular_queries recs5and2 10).length ≤ 10 ∧
    ((get_popular_queries recs5and2 10).map PopRecord.query =
      ["qb", "qa"]) :=
  ⟨(C4_popular_queries recs5and2 10).2.2.1,
   (C4_popular_queries recs5and2 10).2.1,
   (C4_popular_queries recs5and2 10).2.2.2.2.2.1⟩

end RzpSearch
